import Mathlib

/-!
Verification of the NativeBridge repository (bridge_core, bridge_server,
bridge_client) against its specification.

Modelling conventions:
- Rust `String` values are modelled as their UTF-8 byte sequences, of type
  `List Nat` (each entry a byte).
- Machine integers are modelled as `Nat`/`Int`; two's-complement wrapping is
  written explicitly with `% 2 ^ 32` etc. where the wire format needs it.
- The bincode v1 legacy encoding used by `bincode::serialize` is modelled
  byte for byte: enum variant tags are 4-byte little-endian `u32`, strings and
  vectors carry an 8-byte little-endian `u64` length, `i32` is 4-byte
  little-endian two's complement, `u64` is 8-byte little-endian.
- Effectful code (process spawning, socket writes, device writes) is modelled
  by explicit outcome parameters and by the list of frames / raw event records
  the code writes, in order.
-/

namespace NativeBridge

/-! ### Byte-level primitives -/

/-- Little-endian encoding of `n` into `w` bytes (`n % 256 ^ w` is kept). -/
def natLE : Nat → Nat → List Nat
  | 0, _ => []
  | w + 1, n => n % 256 :: natLE w (n / 256)

/-- Big-endian encoding of `n` into `w` bytes, as produced by
`u64::to_be_bytes` in `write_response`. -/
def natBE : Nat → Nat → List Nat
  | 0, _ => []
  | w + 1, n => natBE w (n / 256) ++ [n % 256]

/-- Numeric value of a big-endian byte string, as computed by
`u64::from_be_bytes` on the client side. -/
def beVal (bs : List Nat) : Nat := bs.foldl (fun a b => a * 256 + b) 0

/-- Read `w` little-endian bytes from the head of a byte stream. -/
def parseU : Nat → List Nat → Option (Nat × List Nat)
  | 0, bs => some (0, bs)
  | _ + 1, [] => none
  | w + 1, b :: bs =>
    match parseU w bs with
    | some (n, r) => some (b + 256 * n, r)
    | none => none

/-- Read exactly `k` bytes from the head of a byte stream (the shape of
`read_exact` into a `k`-byte buffer). -/
def readN (k : Nat) (bs : List Nat) : Option (List Nat × List Nat) :=
  if k ≤ bs.length then some (bs.take k, bs.drop k) else none

/-- Two's-complement little-endian encoding of an `i32`. -/
def i32LE (x : Int) : List Nat := natLE 4 (x % 2 ^ 32).toNat

/-- Read a little-endian `i32` from the head of a byte stream. -/
def parseI32 (bs : List Nat) : Option (Int × List Nat) :=
  match parseU 4 bs with
  | some (n, r) => some (if n < 2 ^ 31 then (n : Int) else (n : Int) - 2 ^ 32, r)
  | none => none

/-- UTF-8 byte sequence of an ASCII string literal appearing in the source. -/
def strBytes (s : String) : List Nat := s.data.map Char.toNat

/-! ### Wire protocol codec (bridge_core/src/lib.rs, bincode v1 encoding) -/

/-- The `BridgeCommand` enum of `bridge_core/src/lib.rs`; string fields are
modelled as UTF-8 byte sequences. -/
inductive BridgeCommand where
  | Exec (program : List Nat) (args : List (List Nat))
  | Stream (program : List Nat) (args : List (List Nat))
  | Ping
  | DirectTap (x y : Int)
  | DirectSwipe (x1 y1 x2 y2 : Int) (duration_ms : Nat)
deriving DecidableEq

/-- The `BridgeResponse` enum of `bridge_core/src/lib.rs`. -/
inductive BridgeResponse where
  | Success (s : List Nat)
  | Error (s : List Nat)
  | StreamChunk (s : List Nat)
  | StreamEnd
deriving DecidableEq

/-- Bincode encoding of a string: 8-byte little-endian length, then the
UTF-8 bytes. -/
def encStr (s : List Nat) : List Nat := natLE 8 s.length ++ s

/-- Bincode encoding of the elements of a `Vec<String>`. -/
def encStrList : List (List Nat) → List Nat
  | [] => []
  | s :: ss => encStr s ++ encStrList ss

/-- Bincode encoding of a `Vec<String>`: 8-byte little-endian count, then the
encoded elements. -/
def encVecStr (ss : List (List Nat)) : List Nat := natLE 8 ss.length ++ encStrList ss

/-- Bincode v1 serialization of `BridgeCommand`, as produced by
`bincode::serialize` on the client: a 4-byte little-endian variant tag
followed by the variant's fields. -/
def encodeBridgeCommand : BridgeCommand → List Nat
  | .Exec p a => natLE 4 0 ++ encStr p ++ encVecStr a
  | .Stream p a => natLE 4 1 ++ encStr p ++ encVecStr a
  | .Ping => natLE 4 2
  | .DirectTap x y => natLE 4 3 ++ i32LE x ++ i32LE y
  | .DirectSwipe x1 y1 x2 y2 d =>
    natLE 4 4 ++ i32LE x1 ++ i32LE y1 ++ i32LE x2 ++ i32LE y2 ++ natLE 8 d

/-- Bincode v1 serialization of `BridgeResponse`, as produced by
`bincode::serialize` in `write_response`. -/
def encodeBridgeResponse : BridgeResponse → List Nat
  | .Success s => natLE 4 0 ++ encStr s
  | .Error s => natLE 4 1 ++ encStr s
  | .StreamChunk s => natLE 4 2 ++ encStr s
  | .StreamEnd => natLE 4 3

/-- Read a bincode string from the head of a byte stream. -/
def parseStr (bs : List Nat) : Option (List Nat × List Nat) :=
  match parseU 8 bs with
  | some (n, r) => readN n r
  | none => none

/-- Read `k` bincode strings from the head of a byte stream. -/
def parseStrList : Nat → List Nat → Option (List (List Nat) × List Nat)
  | 0, bs => some ([], bs)
  | k + 1, bs =>
    match parseStr bs with
    | some (s, r) =>
      match parseStrList k r with
      | some (ss, r2) => some (s :: ss, r2)
      | none => none
    | none => none

/-- Read a bincode `Vec<String>` from the head of a byte stream. -/
def parseVecStr (bs : List Nat) : Option (List (List Nat) × List Nat) :=
  match parseU 8 bs with
  | some (n, r) => parseStrList n r
  | none => none

/-- Bincode deserialization of `BridgeCommand` (server side, `handle_client`);
trailing bytes are ignored, matching bincode v1 `deserialize`. An
unrecognized variant tag is a decode error. -/
def decodeCommandAux (bs : List Nat) : Option (BridgeCommand × List Nat) :=
  match parseU 4 bs with
  | none => none
  | some (tag, r) =>
    if tag = 0 then
      match parseStr r with
      | some (p, r1) =>
        match parseVecStr r1 with
        | some (a, r2) => some (.Exec p a, r2)
        | none => none
      | none => none
    else if tag = 1 then
      match parseStr r with
      | some (p, r1) =>
        match parseVecStr r1 with
        | some (a, r2) => some (.Stream p a, r2)
        | none => none
      | none => none
    else if tag = 2 then some (.Ping, r)
    else if tag = 3 then
      match parseI32 r with
      | some (x, r1) =>
        match parseI32 r1 with
        | some (y, r2) => some (.DirectTap x y, r2)
        | none => none
      | none => none
    else if tag = 4 then
      match parseI32 r with
      | some (x1, r1) =>
        match parseI32 r1 with
        | some (y1, r2) =>
          match parseI32 r2 with
          | some (x2, r3) =>
            match parseI32 r3 with
            | some (y2, r4) =>
              match parseU 8 r4 with
              | some (d, r5) => some (.DirectSwipe x1 y1 x2 y2 d, r5)
              | none => none
            | none => none
          | none => none
        | none => none
      | none => none
    else none

/-- Deserialize a `BridgeCommand` from a received buffer. -/
def decodeBridgeCommand (bs : List Nat) : Option BridgeCommand :=
  (decodeCommandAux bs).map Prod.fst

/-- Bincode deserialization of `BridgeResponse` (client side). -/
def decodeResponseAux (bs : List Nat) : Option (BridgeResponse × List Nat) :=
  match parseU 4 bs with
  | none => none
  | some (tag, r) =>
    if tag = 0 then
      match parseStr r with
      | some (s, r1) => some (.Success s, r1)
      | none => none
    else if tag = 1 then
      match parseStr r with
      | some (s, r1) => some (.Error s, r1)
      | none => none
    else if tag = 2 then
      match parseStr r with
      | some (s, r1) => some (.StreamChunk s, r1)
      | none => none
    else if tag = 3 then some (.StreamEnd, r)
    else none

/-- Deserialize a `BridgeResponse` from a received frame payload. -/
def decodeBridgeResponse (bs : List Nat) : Option BridgeResponse :=
  (decodeResponseAux bs).map Prod.fst

/-- Representable-range condition for an `i32` field. -/
def i32wf (x : Int) : Prop := -(2 ^ 31) ≤ x ∧ x < 2 ^ 31

instance (x : Int) : Decidable (i32wf x) := by unfold i32wf; infer_instance

/-- Representable-range condition for a string field: its byte length fits the
`u64` length word. -/
def strWF (s : List Nat) : Prop := s.length < 2 ^ 64

instance (s : List Nat) : Decidable (strWF s) := by unfold strWF; infer_instance

/-- Field values representable by the Rust types of `BridgeCommand`. -/
def wfCommand : BridgeCommand → Prop
  | .Exec p a => strWF p ∧ a.length < 2 ^ 64 ∧ ∀ s ∈ a, strWF s
  | .Stream p a => strWF p ∧ a.length < 2 ^ 64 ∧ ∀ s ∈ a, strWF s
  | .Ping => True
  | .DirectTap x y => i32wf x ∧ i32wf y
  | .DirectSwipe x1 y1 x2 y2 d =>
    i32wf x1 ∧ i32wf y1 ∧ i32wf x2 ∧ i32wf y2 ∧ d < 2 ^ 64

instance (c : BridgeCommand) : Decidable (wfCommand c) := by
  unfold wfCommand; cases c <;> infer_instance

/-- Field values representable by the Rust types of `BridgeResponse`. -/
def wfResponse : BridgeResponse → Prop
  | .Success s => strWF s
  | .Error s => strWF s
  | .StreamChunk s => strWF s
  | .StreamEnd => True

instance (r : BridgeResponse) : Decidable (wfResponse r) := by
  unfold wfResponse; cases r <;> infer_instance

/-! ### Codec round-trip lemmas -/

theorem natLE_length (w n : Nat) : (natLE w n).length = w := by
  induction w generalizing n with
  | zero => rfl
  | succ w ih => simp [natLE, ih]

theorem parseU_natLE (w : Nat) : ∀ (n : Nat) (rest : List Nat),
    parseU w (natLE w n ++ rest) = some (n % 256 ^ w, rest) := by
  induction w with
  | zero => intro n rest; simp [natLE, parseU, Nat.mod_one]
  | succ w ih =>
    intro n rest
    have h : n % 256 ^ (w + 1) = n % 256 + 256 * (n / 256 % 256 ^ w) := by
      rw [pow_succ, mul_comm (256 ^ w) 256, Nat.mod_mul]
    simp [natLE, parseU, ih, h]

theorem parseU_natLE_exact (w n : Nat) (rest : List Nat) (h : n < 256 ^ w) :
    parseU w (natLE w n ++ rest) = some (n, rest) := by
  rw [parseU_natLE, Nat.mod_eq_of_lt h]

theorem readN_append (xs rest : List Nat) :
    readN xs.length (xs ++ rest) = some (xs, rest) := by
  simp [readN, List.take_left, List.drop_left]

theorem parseI32_i32LE (x : Int) (rest : List Nat) (h : i32wf x) :
    parseI32 (i32LE x ++ rest) = some (x, rest) := by
  obtain ⟨h1, h2⟩ := h
  unfold parseI32 i32LE
  have hlt : (x % 2 ^ 32).toNat < 256 ^ 4 := by omega
  rw [parseU_natLE_exact _ _ _ hlt]
  simp only [Option.some.injEq, Prod.mk.injEq, and_true]
  split <;> omega

theorem parseStr_encStr (s : List Nat) (rest : List Nat) (h : strWF s) :
    parseStr (encStr s ++ rest) = some (s, rest) := by
  unfold strWF at h
  have e1 : parseU 8 (natLE 8 s.length ++ (s ++ rest)) = some (s.length, s ++ rest) :=
    parseU_natLE_exact _ _ _ (by simpa using h)
  simp [parseStr, encStr, List.append_assoc, e1, readN_append]

theorem parseStrList_encStrList (ss : List (List Nat)) (rest : List Nat)
    (h : ∀ s ∈ ss, strWF s) :
    parseStrList ss.length (encStrList ss ++ rest) = some (ss, rest) := by
  induction ss with
  | nil => simp [encStrList, parseStrList]
  | cons s ss ih =>
    have h1 : strWF s := h s (by simp)
    have h2 : ∀ t ∈ ss, strWF t := fun t ht => h t (by simp [ht])
    simp [parseStrList, encStrList, List.append_assoc,
      parseStr_encStr s (encStrList ss ++ rest) h1, ih h2]

theorem parseVecStr_encVecStr (ss : List (List Nat)) (rest : List Nat)
    (hlen : ss.length < 2 ^ 64) (h : ∀ s ∈ ss, strWF s) :
    parseVecStr (encVecStr ss ++ rest) = some (ss, rest) := by
  have e1 : parseU 8 (natLE 8 ss.length ++ (encStrList ss ++ rest))
      = some (ss.length, encStrList ss ++ rest) :=
    parseU_natLE_exact _ _ _ (by simpa using hlen)
  simp [parseVecStr, encVecStr, List.append_assoc, e1,
    parseStrList_encStrList ss rest h]

theorem decodeCommandAux_encode (c : BridgeCommand) (h : wfCommand c) :
    decodeCommandAux (encodeBridgeCommand c) = some (c, []) := by
  cases c with
  | Exec p a =>
    obtain ⟨hp, hal, ha⟩ := h
    have e1 : parseU 4 (natLE 4 0 ++ (encStr p ++ encVecStr a))
        = some (0, encStr p ++ encVecStr a) :=
      parseU_natLE_exact _ _ _ (by norm_num)
    have e2 : parseStr (encStr p ++ encVecStr a) = some (p, encVecStr a) :=
      parseStr_encStr p _ hp
    have e3 : parseVecStr (encVecStr a) = some (a, []) := by
      simpa using parseVecStr_encVecStr a [] hal ha
    simp [decodeCommandAux, encodeBridgeCommand, List.append_assoc, e1, e2, e3]
  | Stream p a =>
    obtain ⟨hp, hal, ha⟩ := h
    have e1 : parseU 4 (natLE 4 1 ++ (encStr p ++ encVecStr a))
        = some (1, encStr p ++ encVecStr a) :=
      parseU_natLE_exact _ _ _ (by norm_num)
    have e2 : parseStr (encStr p ++ encVecStr a) = some (p, encVecStr a) :=
      parseStr_encStr p _ hp
    have e3 : parseVecStr (encVecStr a) = some (a, []) := by
      simpa using parseVecStr_encVecStr a [] hal ha
    simp [decodeCommandAux, encodeBridgeCommand, List.append_assoc, e1, e2, e3]
  | Ping =>
    have e1 : parseU 4 (natLE 4 2 ++ ([] : List Nat)) = some (2, []) :=
      parseU_natLE_exact _ _ _ (by norm_num)
    have e1' : parseU 4 (natLE 4 2) = some (2, []) := by simpa using e1
    simp [decodeCommandAux, encodeBridgeCommand, e1']
  | DirectTap x y =>
    obtain ⟨hx, hy⟩ := h
    have e1 : parseU 4 (natLE 4 3 ++ (i32LE x ++ i32LE y))
        = some (3, i32LE x ++ i32LE y) :=
      parseU_natLE_exact _ _ _ (by norm_num)
    have e2 : parseI32 (i32LE x ++ i32LE y) = some (x, i32LE y) :=
      parseI32_i32LE x _ hx
    have e3 : parseI32 (i32LE y) = some (y, []) := by
      simpa using parseI32_i32LE y [] hy
    simp [decodeCommandAux, encodeBridgeCommand, List.append_assoc, e1, e2, e3]
  | DirectSwipe x1 y1 x2 y2 d =>
    obtain ⟨h1, h2, h3, h4, h5⟩ := h
    have e1 : parseU 4
        (natLE 4 4 ++ (i32LE x1 ++ (i32LE y1 ++ (i32LE x2 ++ (i32LE y2 ++ natLE 8 d)))))
        = some (4, i32LE x1 ++ (i32LE y1 ++ (i32LE x2 ++ (i32LE y2 ++ natLE 8 d)))) :=
      parseU_natLE_exact _ _ _ (by norm_num)
    have e2 := parseI32_i32LE x1 (i32LE y1 ++ (i32LE x2 ++ (i32LE y2 ++ natLE 8 d))) h1
    have e3 := parseI32_i32LE y1 (i32LE x2 ++ (i32LE y2 ++ natLE 8 d)) h2
    have e4 := parseI32_i32LE x2 (i32LE y2 ++ natLE 8 d) h3
    have e5 := parseI32_i32LE y2 (natLE 8 d) h4
    have e6 : parseU 8 (natLE 8 d) = some (d, []) := by
      simpa using parseU_natLE_exact 8 d [] (by simpa using h5)
    simp [decodeCommandAux, encodeBridgeCommand, List.append_assoc, e1, e2, e3, e4, e5, e6]

theorem decodeResponseAux_encode (r : BridgeResponse) (h : wfResponse r) :
    decodeResponseAux (encodeBridgeResponse r) = some (r, []) := by
  cases r with
  | Success s =>
    have e1 : parseU 4 (natLE 4 0 ++ encStr s) = some (0, encStr s) :=
      parseU_natLE_exact _ _ _ (by norm_num)
    have e2 : parseStr (encStr s) = some (s, []) := by
      simpa using parseStr_encStr s [] h
    simp [decodeResponseAux, encodeBridgeResponse, e1, e2]
  | Error s =>
    have e1 : parseU 4 (natLE 4 1 ++ encStr s) = some (1, encStr s) :=
      parseU_natLE_exact _ _ _ (by norm_num)
    have e2 : parseStr (encStr s) = some (s, []) := by
      simpa using parseStr_encStr s [] h
    simp [decodeResponseAux, encodeBridgeResponse, e1, e2]
  | StreamChunk s =>
    have e1 : parseU 4 (natLE 4 2 ++ encStr s) = some (2, encStr s) :=
      parseU_natLE_exact _ _ _ (by norm_num)
    have e2 : parseStr (encStr s) = some (s, []) := by
      simpa using parseStr_encStr s [] h
    simp [decodeResponseAux, encodeBridgeResponse, e1, e2]
  | StreamEnd =>
    have e1 : parseU 4 (natLE 4 3) = some (3, []) := by
      simpa using parseU_natLE_exact 4 3 [] (by norm_num)
    simp [decodeResponseAux, encodeBridgeResponse, e1]

/-! ### Framed channel (write_response in bridge_server, read loop in bridge_client) -/

/-- Byte sequence written by `write_response`'s framing: the payload length as
an 8-byte big-endian `u64`, then the payload bytes. -/
def write_frame (payload : List Nat) : List Nat := natBE 8 payload.length ++ payload

/-- Frame reader of the client (`handle_stream_response` and
`handle_single_response`): `read_exact` 8 length bytes, interpret them
big-endian, then `read_exact` that many payload bytes. A short read of either
part yields `none` (the fatal connection error). -/
def read_frame (bs : List Nat) : Option (List Nat × List Nat) :=
  match readN 8 bs with
  | some (lenBytes, r) => readN (beVal lenBytes) r
  | none => none

/-- Full byte output of `write_response` for one response: frame around the
bincode serialization of the response. -/
def write_response (resp : BridgeResponse) : List Nat :=
  write_frame (encodeBridgeResponse resp)

theorem natBE_length (w n : Nat) : (natBE w n).length = w := by
  induction w generalizing n with
  | zero => rfl
  | succ w ih => simp [natBE, ih]

theorem beVal_natBE (w : Nat) : ∀ n : Nat, beVal (natBE w n) = n % 256 ^ w := by
  have gen : ∀ (w a n : Nat),
      (natBE w n).foldl (fun x b => x * 256 + b) a = a * 256 ^ w + n % 256 ^ w := by
    intro w
    induction w with
    | zero => intro a n; simp [natBE, Nat.mod_one]
    | succ w ih =>
      intro a n
      have h : n % 256 ^ (w + 1) = n % 256 + 256 * (n / 256 % 256 ^ w) := by
        rw [pow_succ, mul_comm (256 ^ w) 256, Nat.mod_mul]
      simp only [natBE, List.foldl_append, ih, List.foldl_cons, List.foldl_nil]
      rw [h, pow_succ]
      ring
  intro n
  simpa using gen w 0 n

theorem beVal_natBE_exact (w n : Nat) (h : n < 256 ^ w) : beVal (natBE w n) = n := by
  rw [beVal_natBE, Nat.mod_eq_of_lt h]

/-! ### Command executor (execute_request in bridge_server/src/main.rs) -/

/-- Validity test for a continuation byte of a UTF-8 sequence. -/
def isCont (b : Nat) : Bool := 0x80 ≤ b && b ≤ 0xBF

/-- Incremental model of Rust's `String::from_utf8_lossy`: decode UTF-8,
replacing each maximal invalid subpart with U+FFFD, following the byte-class
table of RFC 3629 that the Rust standard library implements. The result is
the list of decoded Unicode code points; the function is total — invalid
input never fails. -/
def utf8Lossy : List Nat → List Nat
  | [] => []
  | b :: bs =>
    if b < 0x80 then b :: utf8Lossy bs
    else if 0xC2 ≤ b && b ≤ 0xDF then
      match bs with
      | [] => [0xFFFD]
      | c :: bs2 =>
        if isCont c then ((b - 0xC0) * 64 + (c - 0x80)) :: utf8Lossy bs2
        else 0xFFFD :: utf8Lossy (c :: bs2)
    else if 0xE0 ≤ b && b ≤ 0xEF then
      match bs with
      | [] => [0xFFFD]
      | c :: bs2 =>
        let okFirst : Bool :=
          if b = 0xE0 then 0xA0 ≤ c && c ≤ 0xBF
          else if b = 0xED then 0x80 ≤ c && c ≤ 0x9F
          else isCont c
        if okFirst then
          match bs2 with
          | [] => [0xFFFD]
          | c2 :: bs3 =>
            if isCont c2 then
              ((b - 0xE0) * 4096 + (c - 0x80) * 64 + (c2 - 0x80)) :: utf8Lossy bs3
            else 0xFFFD :: utf8Lossy (c2 :: bs3)
        else 0xFFFD :: utf8Lossy (c :: bs2)
    else if 0xF0 ≤ b && b ≤ 0xF4 then
      match bs with
      | [] => [0xFFFD]
      | c :: bs2 =>
        let okFirst : Bool :=
          if b = 0xF0 then 0x90 ≤ c && c ≤ 0xBF
          else if b = 0xF4 then 0x80 ≤ c && c ≤ 0x8F
          else isCont c
        if okFirst then
          match bs2 with
          | [] => [0xFFFD]
          | c2 :: bs3 =>
            if isCont c2 then
              match bs3 with
              | [] => [0xFFFD]
              | c3 :: bs4 =>
                if isCont c3 then
                  ((b - 0xF0) * 262144 + (c - 0x80) * 4096 + (c2 - 0x80) * 64
                    + (c3 - 0x80)) :: utf8Lossy bs4
                else 0xFFFD :: utf8Lossy (c3 :: bs4)
            else 0xFFFD :: utf8Lossy (c2 :: bs3)
        else 0xFFFD :: utf8Lossy (c :: bs2)
    else 0xFFFD :: utf8Lossy bs

/-- UTF-8 re-encoding of one code point (how the decoded `Cow<str>` is turned
back into `String` bytes by `.to_string()`). -/
def utf8EncodeChar (c : Nat) : List Nat :=
  if c < 0x80 then [c]
  else if c < 0x800 then [0xC0 + c / 64, 0x80 + c % 64]
  else if c < 0x10000 then
    [0xE0 + c / 4096, 0x80 + c / 64 % 64, 0x80 + c % 64]
  else
    [0xF0 + c / 262144, 0x80 + c / 4096 % 64, 0x80 + c / 64 % 64, 0x80 + c % 64]

/-- Byte sequence of `String::from_utf8_lossy(bytes).to_string()`: decode
permissively, then re-encode the code points as UTF-8. Total by construction. -/
def lossyText (bs : List Nat) : List Nat := ((utf8Lossy bs).map utf8EncodeChar).flatten

/-- Outcome of `Command::new(program).args(args).output()`: either the OS
refuses to spawn (with an error message), or the process runs to completion
with an exit status and captured stdout/stderr bytes. -/
inductive SpawnOutcome where
  | spawnErr (msg : List Nat)
  | exited (success : Bool) (stdout stderr : List Nat)
deriving DecidableEq

/-- Run-to-completion tail of the `Exec` arm of `execute_request`
(main.rs lines 167-177): `Success(stdout)` on a success exit status,
`Error(stderr)` on a failure status, `Error(message)` when the spawn itself
fails; both output texts go through lossy UTF-8 decoding. -/
def runToCompletion : SpawnOutcome → BridgeResponse
  | .exited true out _ => .Success (lossyText out)
  | .exited false _ err => .Error (lossyText err)
  | .spawnErr m => .Error m

/-- The logcat argument filter of `execute_request`: exactly one argument,
equal to "-d" or "-c" (main.rs lines 155-158). -/
def is_valid_exec_logcat (args : List (List Nat)) : Bool :=
  match args with
  | [a] => a = strBytes "-d" || a = strBytes "-c"
  | _ => false

/-- Policy rejection message of the logcat filter (main.rs lines 161-163). -/
def logcatPolicyMsg : List Nat :=
  strBytes "For live logcat, use the -s flag. Only 'logcat -d' and 'logcat -c' are allowed with -e."

/-- Outcomes of the effectful calls `execute_request` can make, supplied as an
explicit environment: the spawn outcome for `Exec`, and the `input_manager`
results for the direct-input commands (`none` = `Ok(())`, `some msg` =
`Err(e)` with message `msg`). -/
structure ExecEnv where
  spawn : SpawnOutcome
  tapResult : Option (List Nat)
  swipeResult : Option (List Nat)

/-- The `execute_request` dispatcher (main.rs lines 146-200), with the
`direct_input` feature compiled in. `Stream` falls through to the
catch-all arm because `handle_client` intercepts it before this call. -/
def execute_request (env : ExecEnv) : BridgeCommand → BridgeResponse
  | .Exec program args =>
    if program = strBytes "logcat" && !is_valid_exec_logcat args then
      .Error logcatPolicyMsg
    else runToCompletion env.spawn
  | .Ping => .Success (strBytes "Pong!")
  | .DirectTap _ _ =>
    match env.tapResult with
    | none => .Success []
    | some e => .Error (strBytes "Tap Failed: " ++ e)
  | .DirectSwipe _ _ _ _ _ =>
    match env.swipeResult with
    | none => .Success []
    | some e => .Error (strBytes "Swipe Failed: " ++ e)
  | .Stream _ _ =>
    .Error (strBytes "Command not supported or feature disabled on server")

/-! ### Connection session (handle_client / handle_stream_request) -/

/-- Chunk frame built by the stdout relay thread (main.rs line 116): the line
verbatim. -/
def stdoutChunk (line : List Nat) : BridgeResponse := .StreamChunk line

/-- Chunk frame built by the stderr relay thread (main.rs line 129): the line
prefixed with "[STDERR] ". -/
def stderrChunk (line : List Nat) : BridgeResponse :=
  .StreamChunk (strBytes "[STDERR] " ++ line)

/-- Outcome of spawning the streaming child: failure with a message, or a
running child whose stdout and stderr produce the given lines. -/
inductive StreamSpawn where
  | err (msg : List Nat)
  | ok (stdoutLines stderrLines : List (List Nat))

/-- Order-preserving interleaving of two relay outputs onto the shared
socket, driven by a scheduling choice at each step (`true` = the stdout relay
acquires the mutex next, `false` = the stderr relay does). Writes within each
relay keep their order; once one source is exhausted the other drains. -/
def interleave {α : Type} : List Bool → List α → List α → List α
  | _, [], ys => ys
  | _, x :: xs, [] => x :: xs
  | [], x :: xs, y :: ys => x :: xs ++ y :: ys
  | true :: s, x :: xs, y :: ys => x :: interleave s xs (y :: ys)
  | false :: s, x :: xs, y :: ys => y :: interleave s (x :: xs) ys

/-- Frames written by `handle_stream_request` (main.rs lines 86-144) for a
given spawn outcome and relay schedule: on spawn failure, `Error` then
`StreamEnd`; otherwise the interleaved relay chunks of both threads followed
by the final `StreamEnd`. -/
def handle_stream_request (sp : StreamSpawn) (sched : List Bool) : List BridgeResponse :=
  match sp with
  | .err m => [.Error m, .StreamEnd]
  | .ok outs errs =>
    interleave sched (outs.map stdoutChunk) (errs.map stderrChunk) ++ [.StreamEnd]

/-- Environment of one connection session: outcomes of every effectful call
the session might make, plus the rendered text of a bincode decode error. -/
structure SessionEnv where
  exec : ExecEnv
  streamSpawn : StreamSpawn
  sched : List Bool
  decodeErrText : List Nat

/-- Frames written by `handle_client` (main.rs lines 62-84) on receiving
`bytes` from one connection: an empty read ends the session silently; a
decode failure writes one `Error` frame; a `Stream` command hands off to
`handle_stream_request`; every other decoded command gets exactly one
`execute_request` response frame. -/
def handle_client (env : SessionEnv) (bytes : List Nat) : List BridgeResponse :=
  if bytes.length = 0 then []
  else
    match decodeBridgeCommand bytes with
    | some (.Stream _ _) => handle_stream_request env.streamSpawn env.sched
    | some cmd => [execute_request env.exec cmd]
    | none => [.Error (strBytes "Invalid Payload: " ++ env.decodeErrText)]

/-! ### Input synthesizer (bridge_server/src/input_manager.rs)

The `f32` position accumulator of `swipe` is modelled with exact rational
arithmetic; the `as i32` cast is modelled by `ratTrunc` (truncation toward
zero). The structural facts proved below (record counts, ordering, and the
integer-typed touch-down/up endpoints) do not depend on rounding of the
interpolated positions. -/

/-- The `input_event` kernel record built by `write_event`; field layout as in
input_manager.rs lines 20-27. -/
structure InputEvent where
  time_sec : Nat
  time_usec : Nat
  type_ : Nat
  code : Nat
  value : Int
deriving DecidableEq

/-- The record written by `write_event` (input_manager.rs lines 66-81): both
timestamp fields are always zero. -/
def write_event (t c : Nat) (v : Int) : InputEvent :=
  { time_sec := 0, time_usec := 0, type_ := t, code := c, value := v }

/-- Record sequence of `send_touch_event` (lines 84-90): X position, Y
position, BTN_TOUCH state, SYN_REPORT. -/
def send_touch_event (x y state : Int) : List InputEvent :=
  [write_event 3 53 x, write_event 3 54 y, write_event 1 330 state,
    write_event 0 0 0]

/-- Record sequence of `send_move_event` (lines 93-98): X position, Y
position, SYN_REPORT — no touch-state record. -/
def send_move_event (x y : Int) : List InputEvent :=
  [write_event 3 53 x, write_event 3 54 y, write_event 0 0 0]

/-- Record sequence written by `tap` (lines 29-37): touch down then touch up
at the same position. -/
def tap (x y : Int) : List InputEvent :=
  send_touch_event x y 1 ++ send_touch_event x y 0

/-- Truncation toward zero of a rational, the model of Rust's `as i32` cast
applied to the `f32` accumulator. -/
def ratTrunc (q : ℚ) : Int := q.num.tdiv q.den

/-- The interpolation loop of `swipe` (lines 53-58): at each of the remaining
steps, advance the accumulator by `(dx, dy)` and emit a move event at the
truncated position. -/
def swipeLoop (cx cy dx dy : ℚ) : Nat → List InputEvent
  | 0 => []
  | k + 1 =>
    send_move_event (ratTrunc (cx + dx)) (ratTrunc (cy + dy))
      ++ swipeLoop (cx + dx) (cy + dy) dx dy k

/-- Step count of `swipe`: `(duration_ms / step_delay).max(1)` with
`step_delay = 10` (lines 42-43). -/
def swipeSteps (duration_ms : Nat) : Nat := max (duration_ms / 10) 1

/-- Record sequence written by `swipe` (lines 39-63): touch down at the start
position, the interpolation loop, then touch up at the exact end position. -/
def swipe (x1 y1 x2 y2 : Int) (duration_ms : Nat) : List InputEvent :=
  let steps := swipeSteps duration_ms
  let dx : ℚ := ((x2 - x1 : Int) : ℚ) / (steps : ℚ)
  let dy : ℚ := ((y2 - y1 : Int) : ℚ) / (steps : ℚ)
  send_touch_event x1 y1 1
    ++ swipeLoop (x1 : ℚ) (y1 : ℚ) dx dy steps
    ++ send_touch_event x2 y2 0

/-- Concatenation of the move updates for a list of emitted positions. -/
def joinMoves (ms : List (Int × Int)) : List InputEvent :=
  (ms.map (fun p => send_move_event p.1 p.2)).flatten

/-! ### Supporting lemmas for the claim theorems -/

theorem interleave_mem {α : Type} (a : α) :
    ∀ (s : List Bool) (xs ys : List α), a ∈ interleave s xs ys → a ∈ xs ∨ a ∈ ys := by
  intro s
  induction s with
  | nil =>
    intro xs ys h
    cases xs with
    | nil => exact Or.inr (by simpa [interleave] using h)
    | cons x xs =>
      cases ys with
      | nil => exact Or.inl (by simpa [interleave] using h)
      | cons y ys =>
        simp only [interleave, List.cons_append, List.mem_cons, List.mem_append] at h
        simp only [List.mem_cons]
        tauto
  | cons b s ih =>
    intro xs ys h
    cases xs with
    | nil => exact Or.inr (by simpa [interleave] using h)
    | cons x xs =>
      cases ys with
      | nil => exact Or.inl (by simpa [interleave] using h)
      | cons y ys =>
        cases b with
        | true =>
          simp only [interleave, List.mem_cons] at h
          rcases h with h | h
          · exact Or.inl (by simp [h])
          · rcases ih xs (y :: ys) h with h2 | h2
            · exact Or.inl (by simp [h2])
            · exact Or.inr h2
        | false =>
          simp only [interleave, List.mem_cons] at h
          rcases h with h | h
          · exact Or.inr (by simp [h])
          · rcases ih (x :: xs) ys h with h2 | h2
            · exact Or.inl h2
            · exact Or.inr (by simp [h2])

theorem swipeLoop_joinMoves (dx dy : ℚ) :
    ∀ (k : Nat) (cx cy : ℚ), ∃ ms : List (Int × Int),
      swipeLoop cx cy dx dy k = joinMoves ms ∧ ms.length = k := by
  intro k
  induction k with
  | zero => intro cx cy; exact ⟨[], by simp [swipeLoop, joinMoves], rfl⟩
  | succ k ih =>
    intro cx cy
    obtain ⟨ms, hm, hl⟩ := ih (cx + dx) (cy + dy)
    refine ⟨(ratTrunc (cx + dx), ratTrunc (cy + dy)) :: ms, ?_, by simp [hl]⟩
    simp [swipeLoop, joinMoves, hm]

theorem swipeLoop_times (dx dy : ℚ) :
    ∀ (k : Nat) (cx cy : ℚ), ∀ e ∈ swipeLoop cx cy dx dy k,
      e.time_sec = 0 ∧ e.time_usec = 0 := by
  intro k
  induction k with
  | zero => intro cx cy e he; simp [swipeLoop] at he
  | succ k ih =>
    intro cx cy e he
    simp only [swipeLoop, send_move_event, List.cons_append, List.nil_append,
      List.mem_cons] at he
    rcases he with h | h | h | h
    · subst h; exact ⟨rfl, rfl⟩
    · subst h; exact ⟨rfl, rfl⟩
    · subst h; exact ⟨rfl, rfl⟩
    · exact ih (cx + dx) (cy + dy) e h

/-! ### Claim theorems -/

/-- C1: for a `Stream` request whose child spawns, the session writes zero or
more `StreamChunk` frames followed by exactly one final `StreamEnd` frame; on
spawn failure it writes exactly one `Error` frame then one `StreamEnd` frame;
and every successfully decoded non-`Stream` request produces exactly one
response frame before the connection closes. -/
theorem c1_session_frame_discipline (env : SessionEnv) (bytes : List Nat)
    (outs errs : List (List Nat)) (m : List Nat) (cmd : BridgeCommand) :
    (env.streamSpawn = .ok outs errs →
      ∃ chunks, handle_stream_request env.streamSpawn env.sched = chunks ++ [.StreamEnd]
        ∧ ∀ c ∈ chunks, ∃ s, c = .StreamChunk s)
    ∧ (env.streamSpawn = .err m →
      handle_stream_request env.streamSpawn env.sched = [.Error m, .StreamEnd])
    ∧ (bytes.length ≠ 0 → decodeBridgeCommand bytes = some cmd →
      (∀ p a, cmd ≠ .Stream p a) → (handle_client env bytes).length = 1) := by
  refine ⟨fun hok => ?_, fun herr => by rw [herr]; rfl, fun h1 h2 h3 => ?_⟩
  · rw [hok]
    refine ⟨interleave env.sched (outs.map stdoutChunk) (errs.map stderrChunk),
      rfl, fun c hc => ?_⟩
    rcases interleave_mem c env.sched _ _ hc with h | h
    · obtain ⟨l, _, hl⟩ := List.mem_map.mp h
      exact ⟨l, hl.symm⟩
    · obtain ⟨l, _, hl⟩ := List.mem_map.mp h
      exact ⟨strBytes "[STDERR] " ++ l, hl.symm⟩
  · cases cmd with
    | Stream p a => exact absurd rfl (h3 p a)
    | Exec p a => simp [handle_client, h1, h2]
    | Ping => simp [handle_client, h1, h2]
    | DirectTap x y => simp [handle_client, h1, h2]
    | DirectSwipe x1 y1 x2 y2 d => simp [handle_client, h1, h2]

/-- Witness for C1 at concrete inputs: a spawned child with one stdout line,
and the decoded non-stream command `Ping` encoded as `[2, 0, 0, 0]`. -/
theorem c1_witness :
    (SessionEnv.mk ⟨.spawnErr [], none, none⟩ (.ok [[104]] []) [] []).streamSpawn
        = StreamSpawn.ok [[104]] []
    ∧ ([2, 0, 0, 0] : List Nat).length ≠ 0
    ∧ decodeBridgeCommand [2, 0, 0, 0] = some .Ping
    ∧ (∃ chunks,
        handle_stream_request
          (SessionEnv.mk ⟨.spawnErr [], none, none⟩ (.ok [[104]] []) [] []).streamSpawn
          (SessionEnv.mk ⟨.spawnErr [], none, none⟩ (.ok [[104]] []) [] []).sched
          = chunks ++ [.StreamEnd]
        ∧ ∀ c ∈ chunks, ∃ s, c = .StreamChunk s)
    ∧ (handle_client (SessionEnv.mk ⟨.spawnErr [], none, none⟩ (.ok [[104]] []) [] [])
        [2, 0, 0, 0]).length = 1 :=
  ⟨rfl, by decide, by decide,
    (c1_session_frame_discipline
      (SessionEnv.mk ⟨.spawnErr [], none, none⟩ (.ok [[104]] []) [] [])
      [2, 0, 0, 0] [[104]] [] [] .Ping).1 rfl,
    (c1_session_frame_discipline
      (SessionEnv.mk ⟨.spawnErr [], none, none⟩ (.ok [[104]] []) [] [])
      [2, 0, 0, 0] [[104]] [] [] .Ping).2.2 (by decide) (by decide)
      (fun p a h => BridgeCommand.noConfusion h)⟩

/-- C2: decoding the bincode encoding of any representable `BridgeCommand` or
`BridgeResponse` returns the original value, and encoding is deterministic. -/
theorem c2_codec_roundtrip (c : BridgeCommand) (r : BridgeResponse)
    (hc : wfCommand c) (hr : wfResponse r) :
    decodeBridgeCommand (encodeBridgeCommand c) = some c
    ∧ decodeBridgeResponse (encodeBridgeResponse r) = some r
    ∧ (∀ c2, c = c2 → encodeBridgeCommand c = encodeBridgeCommand c2)
    ∧ (∀ r2, r = r2 → encodeBridgeResponse r = encodeBridgeResponse r2) := by
  refine ⟨?_, ?_, fun c2 h => by rw [h], fun r2 h => by rw [h]⟩
  · simp [decodeBridgeCommand, decodeCommandAux_encode c hc]
  · simp [decodeBridgeResponse, decodeResponseAux_encode r hr]

/-- Witness for C2 at a command with negative coordinates and a response with
a nonempty payload. -/
theorem c2_witness :
    wfCommand (.DirectSwipe (-5) 3 100 0 300)
    ∧ wfResponse (.Success (strBytes "ok"))
    ∧ decodeBridgeCommand (encodeBridgeCommand (.DirectSwipe (-5) 3 100 0 300))
        = some (.DirectSwipe (-5) 3 100 0 300)
    ∧ decodeBridgeResponse (encodeBridgeResponse (.Success (strBytes "ok")))
        = some (.Success (strBytes "ok")) := by
  have h1 : wfCommand (.DirectSwipe (-5) 3 100 0 300) := by decide
  have h2 : wfResponse (.Success (strBytes "ok")) := by decide
  obtain ⟨e1, e2, _, _⟩ := c2_codec_roundtrip (.DirectSwipe (-5) 3 100 0 300)
    (.Success (strBytes "ok")) h1 h2
  exact ⟨h1, h2, e1, e2⟩

/-- C3: `write_frame` emits an 8-byte big-endian length equal to the payload
length followed by the payload, and `read_frame` on exactly those bytes
returns exactly the payload. -/
theorem c3_frame_roundtrip (payload : List Nat) (h : payload.length < 2 ^ 64) :
    read_frame (write_frame payload) = some (payload, [])
    ∧ (write_frame payload).take 8 = natBE 8 payload.length
    ∧ (write_frame payload).drop 8 = payload := by
  have hl : (natBE 8 payload.length).length = 8 := natBE_length 8 _
  have e1 := readN_append (natBE 8 payload.length) payload
  rw [hl] at e1
  have e2 : beVal (natBE 8 payload.length) = payload.length :=
    beVal_natBE_exact _ _ (by simpa using h)
  have e3 : readN payload.length payload = some (payload, []) := by
    simpa using readN_append payload []
  have t := List.take_left (natBE 8 payload.length) payload
  have dr := List.drop_left (natBE 8 payload.length) payload
  rw [hl] at t dr
  exact ⟨by simp [read_frame, write_frame, e1, e2, e3],
    by simpa [write_frame] using t, by simpa [write_frame] using dr⟩

/-- Witness for C3 at payload lengths 0, 1 and 2048 bytes. -/
theorem c3_witness :
    ([] : List Nat).length < 2 ^ 64
    ∧ [(7 : Nat)].length < 2 ^ 64
    ∧ (List.replicate 2048 (65 : Nat)).length < 2 ^ 64
    ∧ read_frame (write_frame []) = some ([], [])
    ∧ read_frame (write_frame [7]) = some ([7], [])
    ∧ read_frame (write_frame (List.replicate 2048 (65 : Nat)))
        = some (List.replicate 2048 (65 : Nat), []) := by
  have h0 : ([] : List Nat).length < 2 ^ 64 := by decide
  have h1 : [(7 : Nat)].length < 2 ^ 64 := by decide
  have h2 : (List.replicate 2048 (65 : Nat)).length < 2 ^ 64 := by
    rw [List.length_replicate]; norm_num
  exact ⟨h0, h1, h2, (c3_frame_roundtrip [] h0).1, (c3_frame_roundtrip [7] h1).1,
    (c3_frame_roundtrip _ h2).1⟩

/-- C4: a non-streaming `Exec` of `logcat` with an argument list that is not
exactly one of `["-d"]` or `["-c"]` is rejected with the policy error without
consulting the spawn environment; with a valid single flag it proceeds to
normal run-to-completion execution. -/
theorem c4_logcat_policy (env env2 : ExecEnv) (args : List (List Nat)) :
    (is_valid_exec_logcat args = false →
      execute_request env (.Exec (strBytes "logcat") args) = .Error logcatPolicyMsg
      ∧ execute_request env (.Exec (strBytes "logcat") args)
          = execute_request env2 (.Exec (strBytes "logcat") args))
    ∧ (is_valid_exec_logcat args = true →
      execute_request env (.Exec (strBytes "logcat") args) = runToCompletion env.spawn)
    ∧ (is_valid_exec_logcat args = true
        ↔ args = [strBytes "-d"] ∨ args = [strBytes "-c"]) := by
  refine ⟨fun h => ?_, fun h => ?_, ?_⟩
  · constructor <;> simp [execute_request, h]
  · simp [execute_request, h]
  · cases args with
    | nil => simp [is_valid_exec_logcat]
    | cons a t =>
      cases t with
      | nil => simp [is_valid_exec_logcat]
      | cons b t2 => simp [is_valid_exec_logcat]

/-- Witness for C4: the empty argument list is rejected independently of the
spawn outcome; the single argument `"-d"` proceeds to execution. -/
theorem c4_witness :
    is_valid_exec_logcat [] = false
    ∧ is_valid_exec_logcat [strBytes "-d"] = true
    ∧ execute_request ⟨.spawnErr [], none, none⟩ (.Exec (strBytes "logcat") [])
        = .Error logcatPolicyMsg
    ∧ execute_request ⟨.exited true [104] [], none, none⟩
        (.Exec (strBytes "logcat") [strBytes "-d"])
        = runToCompletion (.exited true [104] []) := by
  have h0 : is_valid_exec_logcat [] = false := by decide
  have h1 : is_valid_exec_logcat [strBytes "-d"] = true := by decide
  exact ⟨h0, h1,
    ((c4_logcat_policy ⟨.spawnErr [], none, none⟩ ⟨.spawnErr [], none, none⟩ []).1 h0).1,
    (c4_logcat_policy ⟨.exited true [104] [], none, none⟩
      ⟨.exited true [104] [], none, none⟩ [strBytes "-d"]).2.1 h1⟩

/-- C5: run-to-completion execution yields `Success` with the lossily decoded
stdout on a success exit status, `Error` with the lossily decoded stderr on a
failure status, and `Error` with the OS message when the spawn fails; the
lossy decoding is a total function, so output decoding never fails. -/
theorem c5_run_to_completion (out err m : List Nat) :
    runToCompletion (.exited true out err) = .Success (lossyText out)
    ∧ runToCompletion (.exited false out err) = .Error (lossyText err)
    ∧ runToCompletion (.spawnErr m) = .Error m
    ∧ lossyText out = ((utf8Lossy out).map utf8EncodeChar).flatten :=
  ⟨rfl, rfl, rfl, rfl⟩

/-- C6: the swipe gesture consists of a touch-down at the start position,
`max (duration_ms / 10) 1` interpolation move updates (so one update even
when `duration_ms < 10`), and a touch-up at the exact end position; for the
instance `(0,0) → (100,0)` over 100 ms there are exactly 10 move updates and
the final emitted position is exactly `(100, 0)`. -/
theorem c6_swipe_structure (x1 y1 x2 y2 : Int) (d : Nat) :
    (∃ ms : List (Int × Int),
      swipe x1 y1 x2 y2 d
        = send_touch_event x1 y1 1 ++ joinMoves ms ++ send_touch_event x2 y2 0
      ∧ ms.length = max (d / 10) 1)
    ∧ (d < 10 → ∃ ms : List (Int × Int),
      swipe x1 y1 x2 y2 d
        = send_touch_event x1 y1 1 ++ joinMoves ms ++ send_touch_event x2 y2 0
      ∧ ms.length = 1)
    ∧ (∃ ms : List (Int × Int),
      swipe 0 0 100 0 100
        = send_touch_event 0 0 1 ++ joinMoves ms ++ send_touch_event 100 0 0
      ∧ ms.length = 10) := by
  have main : ∀ (a1 b1 a2 b2 : Int) (dd : Nat), ∃ ms : List (Int × Int),
      swipe a1 b1 a2 b2 dd
        = send_touch_event a1 b1 1 ++ joinMoves ms ++ send_touch_event a2 b2 0
      ∧ ms.length = max (dd / 10) 1 := by
    intro a1 b1 a2 b2 dd
    obtain ⟨ms, hm, hl⟩ :=
      swipeLoop_joinMoves (((a2 : ℚ) - (a1 : ℚ)) / ((swipeSteps dd : Nat) : ℚ))
        (((b2 : ℚ) - (b1 : ℚ)) / ((swipeSteps dd : Nat) : ℚ))
        (swipeSteps dd) (a1 : ℚ) (b1 : ℚ)
    exact ⟨ms, by simp [swipe, hm], by simp [hl, swipeSteps]⟩
  refine ⟨main x1 y1 x2 y2 d, fun hd => ?_, ?_⟩
  · obtain ⟨ms, hm, hl⟩ := main x1 y1 x2 y2 d
    exact ⟨ms, hm, by omega⟩
  · obtain ⟨ms, hm, hl⟩ := main 0 0 100 0 100
    exact ⟨ms, hm, by omega⟩

/-- Witness for C6 with `duration_ms = 5 < 10`: still one move update. -/
theorem c6_witness :
    (5 : Nat) < 10
    ∧ ∃ ms : List (Int × Int),
      swipe 1 2 3 4 5 = send_touch_event 1 2 1 ++ joinMoves ms ++ send_touch_event 3 4 0
      ∧ ms.length = 1 :=
  ⟨by decide, (c6_swipe_structure 1 2 3 4 5).2.1 (by decide)⟩

/-- C8 counterexample: the position updates of the swipe interpolation phase
are three records (X, Y, SYN_REPORT), not four — `swipe 0 0 100 0 100` writes
4 + 10·3 + 4 = 38 records, and its first interpolation update is the
three-record `send_move_event 10 0`. -/
theorem c8_counterexample :
    (send_move_event 10 0).length = 3
    ∧ (swipe 0 0 100 0 100).take 7 = send_touch_event 0 0 1 ++ send_move_event 10 0
    ∧ (swipe 0 0 100 0 100).length = 38 := by
  refine ⟨rfl, ?_, by decide⟩
  have hsteps : swipeSteps 100 = 10 := by norm_num [swipeSteps]
  have hdx : ((100 - 0 : Int) : ℚ) / ((swipeSteps 100 : Nat) : ℚ) = 10 := by
    rw [hsteps]; norm_num
  have hdy : ((0 - 0 : Int) : ℚ) / ((swipeSteps 100 : Nat) : ℚ) = 0 := by
    rw [hsteps]; norm_num
  have h1 : ratTrunc ((0 : ℚ) + 10) = 10 := by norm_num [ratTrunc]
  have h2 : ratTrunc ((0 : ℚ) + 0) = 0 := by norm_num [ratTrunc]
  show (send_touch_event 0 0 1
      ++ swipeLoop ((0 : Int) : ℚ) ((0 : Int) : ℚ)
          (((100 - 0 : Int) : ℚ) / ((swipeSteps 100 : Nat) : ℚ))
          (((0 - 0 : Int) : ℚ) / ((swipeSteps 100 : Nat) : ℚ)) (swipeSteps 100)
      ++ send_touch_event 100 0 0).take 7 = _
  rw [hdx, hdy, hsteps]
  show (send_touch_event 0 0 1
      ++ swipeLoop 0 0 10 0 (9 + 1) ++ send_touch_event 100 0 0).take 7 = _
  rw [swipeLoop, h1, h2]
  rfl

/-- C8 amended: touch-state updates (`send_touch_event`) are exactly four
records in the order X position, Y position, touch state, synchronization;
interpolation move updates (`send_move_event`) are exactly three records in
the order X position, Y position, synchronization; both end with a
synchronization record. -/
theorem c8_touch_update_layout (x y s : Int) :
    send_touch_event x y s
      = [write_event 3 53 x, write_event 3 54 y, write_event 1 330 s, write_event 0 0 0]
    ∧ send_move_event x y = [write_event 3 53 x, write_event 3 54 y, write_event 0 0 0]
    ∧ (send_touch_event x y s).length = 4
    ∧ (send_move_event x y).length = 3
    ∧ (send_touch_event x y s).getLast? = some (write_event 0 0 0)
    ∧ (send_move_event x y).getLast? = some (write_event 0 0 0) :=
  ⟨rfl, rfl, rfl, rfl, rfl, rfl⟩

/-- C9: every raw event record written by `tap` or `swipe` carries
`time_sec = 0` and `time_usec = 0`. -/
theorem c9_zero_timestamps (x y x1 y1 x2 y2 : Int) (d : Nat) :
    (∀ e ∈ tap x y, e.time_sec = 0 ∧ e.time_usec = 0)
    ∧ (∀ e ∈ swipe x1 y1 x2 y2 d, e.time_sec = 0 ∧ e.time_usec = 0) := by
  constructor
  · intro e he
    simp only [tap, send_touch_event, List.cons_append, List.nil_append,
      List.mem_cons, List.not_mem_nil, or_false] at he
    rcases he with h | h | h | h | h | h | h | h <;> (subst h; exact ⟨rfl, rfl⟩)
  · intro e he
    simp only [swipe, send_touch_event, List.append_assoc, List.mem_append,
      List.mem_cons, List.not_mem_nil, or_false] at he
    rcases he with (h | h | h | h) | h | (h | h | h | h)
    · subst h; exact ⟨rfl, rfl⟩
    · subst h; exact ⟨rfl, rfl⟩
    · subst h; exact ⟨rfl, rfl⟩
    · subst h; exact ⟨rfl, rfl⟩
    · exact swipeLoop_times _ _ _ _ _ e h
    · subst h; exact ⟨rfl, rfl⟩
    · subst h; exact ⟨rfl, rfl⟩
    · subst h; exact ⟨rfl, rfl⟩
    · subst h; exact ⟨rfl, rfl⟩

/-- Witness for C9 at a concrete record of `tap 5 6`. -/
theorem c9_witness :
    write_event 3 53 5 ∈ tap 5 6
    ∧ (write_event 3 53 5).time_sec = 0 ∧ (write_event 3 53 5).time_usec = 0 := by
  have hm : write_event 3 53 5 ∈ tap 5 6 := by decide
  obtain ⟨h1, h2⟩ := (c9_zero_timestamps 5 6 0 0 0 0 0).1 (write_event 3 53 5) hm
  exact ⟨hm, h1, h2⟩

/-- C10 counterexample: a stdout line that itself begins with the stderr
marker produces a chunk identical to a stderr chunk, so the two origins are
not distinguishable in every `StreamChunk`. -/
theorem c10_counterexample :
    stdoutChunk (strBytes "[STDERR] x") = stderrChunk (strBytes "x")
    ∧ strBytes "[STDERR] x" ≠ strBytes "x" := by
  refine ⟨by decide, by decide⟩

/-- C10 amended: every stderr chunk is exactly `"[STDERR] "` concatenated
with the source line and every stdout chunk is the source line verbatim;
consequently the origins are distinguishable whenever the stdout line does
not itself begin with the 9-byte stderr marker. -/
theorem c10_chunk_tagging (l l2 : List Nat) :
    stderrChunk l = .StreamChunk (strBytes "[STDERR] " ++ l)
    ∧ stdoutChunk l = .StreamChunk l
    ∧ (l.take 9 ≠ strBytes "[STDERR] " → stdoutChunk l ≠ stderrChunk l2) := by
  refine ⟨rfl, rfl, fun h hEq => h ?_⟩
  have hl : l = strBytes "[STDERR] " ++ l2 := by
    simpa [stdoutChunk, stderrChunk] using hEq
  have h9 : (strBytes "[STDERR] ").length = 9 := rfl
  rw [hl, ← h9, List.take_left]

/-- Witness for C10 at a stdout line not starting with the marker. -/
theorem c10_witness :
    (strBytes "hello").take 9 ≠ strBytes "[STDERR] "
    ∧ stdoutChunk (strBytes "hello") ≠ stderrChunk (strBytes "hello") :=
  ⟨by decide, (c10_chunk_tagging (strBytes "hello") (strBytes "hello")).2.2 (by decide)⟩

end NativeBridge
